import Mathlib

/-!
Verification of the backtesting engine of `server/backtest/engine.js`.

Shallow embedding conventions:
* JS numbers are modelled as exact rationals (`ℚ`); timestamps as milliseconds (`ℤ`).
* Fallible code returns `Option`/`Except` (a JS `throw` is `none` / `Except.error`).
* The single floating-point square root in the Sharpe-ratio computation is
  modelled with `Real.sqrt`; every other definition is computable.
-/

namespace Backtest

/-- Position side, `'LONG' | 'SHORT'` in `engine.js`. -/
inductive Side
  | LONG
  | SHORT
deriving DecidableEq

/-- One OHLCV candle (`{timestamp, open, high, low, close, volume}`). -/
structure Candle where
  timestamp : ℤ
  «open» : ℚ
  high : ℚ
  low : ℚ
  close : ℚ
  volume : ℚ
deriving DecidableEq

/-! ## Timeframe parsing (`timeframeToMs`, engine.js lines 25-34) -/

/-- `parseInt(match[1], 10)` on a run of decimal digits. -/
def natOfDigits (ds : List Char) : ℕ :=
  ds.foldl (fun a c => a * 10 + (c.toNat - 48)) 0

/-- The regex `^(\d+)(m|h|d)$` applied to a character list: a nonempty run of
digits followed by exactly one unit character.  Returns the captured number and
the unit character. -/
def matchTf (cs : List Char) : Option (ℕ × Char) :=
  let ds := cs.takeWhile Char.isDigit
  match cs.dropWhile Char.isDigit with
  | [u] =>
      if ds ≠ [] ∧ (u = 'm' ∨ u = 'h' ∨ u = 'd') then some (natOfDigits ds, u)
      else none
  | _ => none

/-- `timeframeToMs(tf)`: the source lowercases the label
(`String(tf).toLowerCase()`), matches `^(\d+)(m|h|d)$` and converts the unit to
milliseconds, throwing on a failed match (modelled as `none`). -/
def timeframeToMs (tf : String) : Option ℕ :=
  match matchTf (tf.toList.map Char.toLower) with
  | none => none
  | some (n, u) =>
      if u = 'm' then some (n * 60 * 1000)
      else if u = 'h' then some (n * 60 * 60 * 1000)
      else if u = 'd' then some (n * 24 * 60 * 60 * 1000)
      else none

/-- Character-list form of the raw pattern test used below. -/
def patternB (cs : List Char) : Bool :=
  match cs.getLast? with
  | none => false
  | some u =>
      (u = 'm' || u = 'h' || u = 'd') && !cs.dropLast.isEmpty
        && cs.dropLast.all Char.isDigit

/-- Stated from the spec's words, for comparison with `timeframeToMs`: whether
the label itself (no case normalization) matches `^\d+(m|h|d)$`. -/
def matchesTfPattern (s : String) : Bool :=
  patternB s.toList

/-! ## Candle aggregation (`aggregateCandles`, engine.js lines 37-64) -/

/-- `Math.floor(ts / interval) * interval`, the bucket key of a timestamp. -/
def bucketOf (interval : ℕ) (ts : ℤ) : ℤ :=
  Int.fdiv ts (interval : ℤ) * (interval : ℤ)

/-- The aggregated candle emitted for one bucket key (engine.js lines 52-61).
The group for a key is the sublist of input candles with that bucket key (a JS
`Map` group holds its candles in input order, so it equals `List.filter`); an
empty group is skipped (`continue`), which cannot occur for keys taken from
the candles themselves.  The reduce over `Math.max`/`Math.min` starts from
`-Infinity`/`Infinity` in the source; since the group is nonempty here, the
fold is seeded with the head's value instead. -/
def bucketBuilder (interval : ℕ) (candles : List Candle) (key : ℤ) :
    Option Candle :=
  match candles.filter
      (fun c => decide (bucketOf interval c.timestamp = key)) with
  | [] => none
  | g₀ :: gs =>
      some { timestamp := key
             «open» := g₀.«open»
             close := ((g₀ :: gs).getLast (List.cons_ne_nil g₀ gs)).close
             high := gs.foldl (fun m v => max m v.high) g₀.high
             low := gs.foldl (fun m v => min m v.low) g₀.low
             volume := (g₀ :: gs).foldl (fun s v => s + v.volume) 0 }

/-- `aggregateCandles(candles, timeframe)` (engine.js lines 37-64): an empty
input returns `[]` before the timeframe is even parsed; otherwise the bucket
keys of all candles are collected (the `Map`'s insertion-ordered key set,
modelled by `dedup` — its pre-sort order is irrelevant because the keys are
sorted numerically before use) and one aggregated candle is emitted per key in
ascending key order. -/
def aggregateCandles (candles : List Candle) (timeframe : String) :
    Option (List Candle) :=
  if candles = [] then some []
  else
    match timeframeToMs timeframe with
    | none => none
    | some interval =>
        let keys := (candles.map fun c => bucketOf interval c.timestamp).dedup
        let sortedKeys := List.insertionSort (· ≤ ·) keys
        some (sortedKeys.filterMap (bucketBuilder interval candles))

/-! ## Simulation state (`run`, engine.js lines 190-413) -/

/-- Engine configuration (`commission`, `slippage`, `initialCapital`).  The JS
constructor substitutes defaults via `options.x || default`; the claims quantify
over already-constructed engines, so the fields are taken as given. -/
structure Engine where
  commission : ℚ
  slippage : ℚ
  initialCapital : ℚ
deriving DecidableEq

/-- A strategy's returned signal object.  The engine destructures
`const { signal: action, size, meta } = signal || { signal: 'HOLD' }`, i.e. it
reads the `signal` field; an `action` field, if present, is never read (kept
here so that behaviour is statable).  `meta` values are opaque to the engine
and modelled as strings. -/
structure Signal where
  signal : Option String
  action : Option String
  size : Option ℚ
  meta : Option String
deriving DecidableEq

/-- The `{ signal: 'HOLD' }` object substituted for a null/undefined return. -/
def holdObj : Signal :=
  { signal := some "HOLD", action := none, size := none, meta := none }

/-- An open position (engine.js line 228 and the open-position literals). -/
structure Position where
  side : Side
  size : ℚ
  entryPrice : ℚ
  entryTime : ℤ
  entryIndex : ℕ
  meta : Option String
  totalCost : ℚ
deriving DecidableEq

/-- A closed round-trip trade (the literals pushed at lines 309-321/390-402). -/
structure Trade where
  entryTime : ℤ
  exitTime : ℤ
  side : Side
  size : ℚ
  entryPrice : ℚ
  exitPrice : ℚ
  pnl : ℚ
  pnlPercent : ℚ
  entryIndex : ℕ
  exitIndex : ℕ
  meta : Option String
deriving DecidableEq

/-- `{timestamp, equity}` snapshot. -/
structure EquityPoint where
  timestamp : ℤ
  equity : ℚ
deriving DecidableEq

/-- The mutable loop state: `capital`, `position`, `trades`. -/
structure RunState where
  capital : ℚ
  position : Option Position
  trades : List Trade
deriving DecidableEq

/-- The context handed to the strategy at step `i` (engine.js lines 254-261):
the primary candles `[0..i]`, the index, and the current candle.  The
per-timeframe prefix views, `params` and the strategy-owned mutable state bag
are also passed in the source; no claim reads them and strategies here are
quantified over, so they are not carried. -/
structure Ctx where
  candles : List Candle
  index : ℕ
  currentCandle : Candle

/-- A strategy: called once per step; may throw (`Except.error`) and may return
null/undefined (`none`). -/
def Strategy : Type := Ctx → Except Unit (Option Signal)

/-- `size || 1.0`: JS replaces an absent *or zero* size by the default 1.0
(`0` is falsy). -/
def jsSizeDefault (size : Option ℚ) : ℚ :=
  match size with
  | none => 1
  | some s => if s = 0 then 1 else s

/-- Signal interpretation against the position state (engine.js lines 270-343):
the `BUY && !position` / `SELL && position` / `SELL && !position` chain. -/
def applyAction (eng : Engine) (i : ℕ) (candle : Candle)
    (action : Option String) (size : Option ℚ) (meta : Option String)
    (st : RunState) : RunState :=
  match st.position with
  | none =>
      if action = some "BUY" then
        let tradeSize := jsSizeDefault size
        let entryPrice := candle.close * (1 + eng.slippage)
        let cost := entryPrice * tradeSize
        let commissionCost := cost * eng.commission
        let totalCost := cost + commissionCost
        if st.capital ≥ totalCost then
          { st with
            position := some
              { side := Side.LONG
                size := tradeSize
                entryPrice := entryPrice
                entryTime := candle.timestamp
                entryIndex := i
                meta := meta
                totalCost := totalCost }
            capital := st.capital - totalCost }
        else st
      else if action = some "SELL" then
        let tradeSize := jsSizeDefault size
        let entryPrice := candle.close * (1 - eng.slippage)
        let cost := entryPrice * tradeSize
        let commissionCost := cost * eng.commission
        let totalCost := cost + commissionCost
        if st.capital ≥ totalCost then
          { st with
            position := some
              { side := Side.SHORT
                size := tradeSize
                entryPrice := entryPrice
                entryTime := candle.timestamp
                entryIndex := i
                meta := meta
                totalCost := totalCost }
            capital := st.capital - totalCost }
        else st
      else st
  | some position =>
      if action = some "SELL" then
        let exitPrice := candle.close * (1 - eng.slippage)
        let revenue := exitPrice * position.size
        let commissionCost := revenue * eng.commission
        let netRevenue := revenue - commissionCost
        let pnl :=
          match position.side with
          | Side.LONG => netRevenue - position.totalCost
          | Side.SHORT => position.totalCost - netRevenue
        let pnlPercent := pnl / position.totalCost * 100
        { capital := st.capital + netRevenue
          position := none
          trades := st.trades ++
            [{ entryTime := position.entryTime
               exitTime := candle.timestamp
               side := position.side
               size := position.size
               entryPrice := position.entryPrice
               exitPrice := exitPrice
               pnl := pnl
               pnlPercent := pnlPercent
               entryIndex := position.entryIndex
               exitIndex := i
               meta := position.meta }] }
      else st

/-- The strategy context built at a step: `processed` is the list of candles
already iterated past, so `index = processed.length` and
`candles = primarySeries.slice(0, i + 1)`. -/
def mkCtx (processed : List Candle) (c : Candle) : Ctx :=
  { candles := processed ++ [c], index := processed.length, currentCandle := c }

/-- `capital` plus unrealized P&L of any open position, marked at the candle's
close (engine.js lines 345-357). -/
def totalEquity (candle : Candle) (st : RunState) : ℚ :=
  match st.position with
  | none => st.capital
  | some position =>
      match position.side with
      | Side.LONG =>
          st.capital + (candle.close - position.entryPrice) * position.size
      | Side.SHORT =>
          st.capital + (position.entryPrice - candle.close) * position.size

/-- One iteration of the simulation loop (engine.js lines 237-368) as it acts
on the engine state.  A strategy throw is caught: the step is skipped.  When
the strategy returns, its signal is applied; the subsequent
`equityCurve.push(...)` (line 360) reads the identifier `equityCurve`, which is
never declared anywhere in `run`, so it raises a `ReferenceError` that the same
`catch` swallows.  That statement is the last one of the `try` block and
mutates no engine state, so the step's net effect is exactly the signal
application — and no equity point is ever recorded. -/
def runStep (eng : Engine) (strategy : Strategy) (processed : List Candle)
    (c : Candle) (st : RunState) : RunState :=
  match strategy (mkCtx processed c) with
  | Except.error _ => st
  | Except.ok sig =>
      let sigObj := sig.getD holdObj
      applyAction eng processed.length c sigObj.signal sigObj.size sigObj.meta st

/-- The loop over the primary series, carrying the already-processed part. -/
def runLoopAux (eng : Engine) (strategy : Strategy) :
    List Candle → List Candle → RunState → RunState
  | _, [], st => st
  | processed, c :: rest, st =>
      runLoopAux eng strategy (processed ++ [c]) rest
        (runStep eng strategy processed c st)

/-- Initial state: configured capital, no position, no trades. -/
def initState (eng : Engine) : RunState :=
  { capital := eng.initialCapital, position := none, trades := [] }

/-- The whole loop of engine.js lines 237-368. -/
def runLoop (eng : Engine) (strategy : Strategy) (series : List Candle) :
    RunState :=
  runLoopAux eng strategy [] series (initState eng)

/-- End-of-run force close (engine.js lines 370-403): if a position is open
and the series is nonempty, close it at the last candle's close minus slippage
and append the trade.  (The source leaves the now-dead `position` variable
set; only `capital` and `trades` are observable afterwards.) -/
def closeFinal (eng : Engine) (series : List Candle) (st : RunState) :
    RunState :=
  match st.position, series.getLast? with
  | some position, some lastCandle =>
      let exitPrice := lastCandle.close * (1 - eng.slippage)
      let revenue := exitPrice * position.size
      let commissionCost := revenue * eng.commission
      let netRevenue := revenue - commissionCost
      let pnl :=
        match position.side with
        | Side.LONG => netRevenue - position.totalCost
        | Side.SHORT => position.totalCost - netRevenue
      let pnlPercent := pnl / position.totalCost * 100
      { st with
        capital := st.capital + netRevenue
        trades := st.trades ++
          [{ entryTime := position.entryTime
             exitTime := lastCandle.timestamp
             side := position.side
             size := position.size
             entryPrice := position.entryPrice
             exitPrice := exitPrice
             pnl := pnl
             pnlPercent := pnlPercent
             entryIndex := position.entryIndex
             exitIndex := series.length - 1
             meta := position.meta }] }
  | _, _ => st

/-! ## Metrics (`calculateMetrics`, engine.js lines 418-503) -/

/-- The report record.  `profitFactor` can be `Infinity` in JS, hence
`WithTop ℚ`; `sharpeRatio` involves a square root, hence `ℝ`. -/
structure Metrics where
  totalTrades : ℕ
  wins : ℕ
  losses : ℕ
  winRate : ℚ
  accuracy : ℚ
  netPnL : ℚ
  roi : ℚ
  maxDrawdown : ℚ
  maxDrawdownPercent : ℚ
  expectancy : ℚ
  averageWin : ℚ
  averageLoss : ℚ
  profitFactor : WithTop ℚ
  sharpeRatio : ℝ

/-- The all-zero report returned for an empty trade list (lines 419-436). -/
def zeroMetrics : Metrics :=
  { totalTrades := 0, wins := 0, losses := 0, winRate := 0, accuracy := 0
    netPnL := 0, roi := 0, maxDrawdown := 0, maxDrawdownPercent := 0
    expectancy := 0, averageWin := 0, averageLoss := 0, profitFactor := 0
    sharpeRatio := 0 }

/-- `parseFloat(x.toFixed(2))`: rounding to two decimal places.  (JS `toFixed`
rounds on the binary value; exact decimal ties are idealized as round-half-up.) -/
def fix2 (x : ℚ) : ℚ := (round (x * 100) : ℚ) / 100

/-- `toFixed(2)` on the real-valued Sharpe ratio. -/
noncomputable def fix2R (x : ℝ) : ℝ := (round (x * 100) : ℝ) / 100

/-- `toFixed(2)` on the possibly-infinite profit factor
(`parseFloat(Infinity.toFixed(2))` is `Infinity`). -/
def fix2T : WithTop ℚ → WithTop ℚ := WithTop.map fix2

/-- The running-peak drawdown walk (lines 456-470), returning
`(peak, maxDrawdown, maxDrawdownPercent)`. -/
def drawdownStats (initialCapital : ℚ) (equityCurve : List EquityPoint) :
    ℚ × ℚ × ℚ :=
  equityCurve.foldl
    (fun acc point =>
      let peak := if point.equity > acc.1 then point.equity else acc.1
      let drawdown := peak - point.equity
      if drawdown > acc.2.1 then (peak, drawdown, drawdown / peak * 100)
      else (peak, acc.2.1, acc.2.2))
    (initialCapital, 0, 0)

/-- Per-step simple returns from consecutive equity points (lines 478-481);
a non-positive previous equity yields a 0 return. -/
def equityReturns (equityCurve : List EquityPoint) : List ℚ :=
  (equityCurve.zip equityCurve.tail).map fun pr =>
    if pr.1.equity > 0 then (pr.2.equity - pr.1.equity) / pr.1.equity else 0

/-- Annualized Sharpe ratio (lines 477-485).  On an empty return list JS
produces `NaN` for the mean and standard deviation, and `NaN > 0` is false, so
the result is 0; here division by the zero length gives 0 directly, so the
`stdDev > 0` guard fails the same way and the result is likewise 0. -/
noncomputable def sharpeRatioOf (equityCurve : List EquityPoint) : ℝ :=
  let returns := equityReturns equityCurve
  let avgReturn : ℚ := returns.sum / (returns.length : ℚ)
  let variance : ℚ :=
    (returns.map fun r => (r - avgReturn) ^ 2).sum / (returns.length : ℚ)
  let stdDev : ℝ := Real.sqrt (variance : ℝ)
  if stdDev > 0 then ((avgReturn : ℝ) / stdDev) * Real.sqrt 252 else 0

/-- `calculateMetrics(trades, equityCurve, initialCapital)`. -/
noncomputable def calculateMetrics (trades : List Trade)
    (equityCurve : List EquityPoint) (initialCapital : ℚ) : Metrics :=
  if trades = [] then zeroMetrics
  else
    let winningTrades := trades.filter fun t => decide (t.pnl > 0)
    let losingTrades := trades.filter fun t => decide (t.pnl < 0)
    let wins := winningTrades.length
    let losses := losingTrades.length
    let winRate : ℚ := (wins : ℚ) / (trades.length : ℚ) * 100
    let totalPnL := (trades.map Trade.pnl).sum
    let roi := totalPnL / initialCapital * 100
    let averageWin : ℚ :=
      if winningTrades.length > 0 then
        (winningTrades.map Trade.pnl).sum / (winningTrades.length : ℚ)
      else 0
    let averageLoss : ℚ :=
      if losingTrades.length > 0 then
        |(losingTrades.map Trade.pnl).sum / (losingTrades.length : ℚ)|
      else 0
    let expectancy :=
      winRate / 100 * averageWin - (100 - winRate) / 100 * averageLoss
    let dd := drawdownStats initialCapital equityCurve
    let grossProfit := (winningTrades.map Trade.pnl).sum
    let grossLoss := |(losingTrades.map Trade.pnl).sum|
    let profitFactor : WithTop ℚ :=
      if grossLoss > 0 then (grossProfit / grossLoss : ℚ)
      else if grossProfit > 0 then ⊤ else (0 : ℚ)
    { totalTrades := trades.length
      wins := wins
      losses := losses
      winRate := fix2 winRate
      accuracy := fix2 winRate
      netPnL := fix2 totalPnL
      roi := fix2 roi
      maxDrawdown := fix2 dd.2.1
      maxDrawdownPercent := fix2 dd.2.2
      expectancy := fix2 expectancy
      averageWin := fix2 averageWin
      averageLoss := fix2 averageLoss
      profitFactor := fix2T profitFactor
      sharpeRatio := fix2R (sharpeRatioOf equityCurve) }

/-! ## The run result (engine.js lines 405-412) -/

/-- `{trades, metrics, finalCapital}`. -/
structure RunResult where
  trades : List Trade
  metrics : Metrics
  finalCapital : ℚ

/-- `run(strategyCode, data)` for a raw primary series: iterate the loop,
force-close any open position, and compute metrics.  The metrics call at line
406 passes the literal `[]` as the equity series
(`this.calculateMetrics(trades, [], this.initialCapital)`). -/
noncomputable def run (eng : Engine) (strategy : Strategy)
    (series : List Candle) : RunResult :=
  let st := closeFinal eng series (runLoop eng strategy series)
  { trades := st.trades
    metrics := calculateMetrics st.trades [] eng.initialCapital
    finalCapital := st.capital }

/-- Modelled from the spec: the equity series the spec says `run` records (an
`EquityPoint` per successful step, capital plus unrealized P&L marked at the
step's close).  The source computes exactly this value (`totalEquity`, lines
345-357) but pushes it onto the undeclared `equityCurve`, so the recording is
missing from the executable code; a step whose strategy call throws records no
point (the push sits inside the same `try`). -/
def intendedEquityCurve (eng : Engine) (strategy : Strategy) :
    List Candle → List Candle → RunState → List EquityPoint
  | _, [], _ => []
  | processed, c :: rest, st =>
      match strategy (mkCtx processed c) with
      | Except.error _ =>
          intendedEquityCurve eng strategy (processed ++ [c]) rest st
      | Except.ok sig =>
          let sigObj := sig.getD holdObj
          let st' := applyAction eng processed.length c sigObj.signal
            sigObj.size sigObj.meta st
          { timestamp := c.timestamp, equity := totalEquity c st' } ::
            intendedEquityCurve eng strategy (processed ++ [c]) rest st'

/-! ## Concrete fixtures used by witnesses and counterexamples -/

/-- The constructor defaults: commission 0.001, slippage 0.0005, capital 10000. -/
def demoEngine : Engine :=
  { commission := 1/1000, slippage := 1/2000, initialCapital := 10000 }

/-- `{ signal: 'BUY' }`. -/
def buySig : Signal :=
  { signal := some "BUY", action := none, size := none, meta := none }

/-- `{ signal: 'SELL' }`. -/
def sellSig : Signal :=
  { signal := some "SELL", action := none, size := none, meta := none }

/-- `{ action: 'BUY' }` — carries only an `action` field, no `signal` field. -/
def actionOnlySig : Signal :=
  { signal := none, action := some "BUY", size := none, meta := none }

/-- A flat candle at a single price. -/
def mkCandle (ts : ℤ) (price : ℚ) : Candle :=
  { timestamp := ts, «open» := price, high := price, low := price
    close := price, volume := 0 }

/-- Buys on the first step, then holds. -/
def buyHoldStrategy : Strategy := fun ctx =>
  if ctx.index = 0 then Except.ok (some buySig) else Except.ok (some holdObj)

/-- Buys on step 0, sells on step 1, then holds. -/
def buySellStrategy : Strategy := fun ctx =>
  if ctx.index = 0 then Except.ok (some buySig)
  else if ctx.index = 1 then Except.ok (some sellSig)
  else Except.ok (some holdObj)

/-- Signals BUY on every step. -/
def alwaysBuyStrategy : Strategy := fun _ => Except.ok (some buySig)

/-- Returns HOLD on every step. -/
def alwaysHoldStrategy : Strategy := fun _ => Except.ok (some holdObj)

/-- Throws on every step. -/
def throwingStrategy : Strategy := fun _ => Except.error ()

/-- Throws at step 1 only; holds everywhere else. -/
def throwAtOneStrategy : Strategy := fun ctx =>
  if ctx.index = 1 then Except.error () else Except.ok (some holdObj)

/-- Returns `{ action: 'BUY' }` (no `signal` field) on every step. -/
def actionOnlyStrategy : Strategy := fun _ => Except.ok (some actionOnlySig)

/-- Two candles: price 2000 then 1000. -/
def demoSeries2 : List Candle := [mkCandle 0 2000, mkCandle 3600000 1000]

/-- A single candle at price 2000. -/
def demoSeries1 : List Candle := [mkCandle 0 2000]

/-- Three candles spanning two hourly buckets. -/
def demoAggSeries : List Candle :=
  [{ timestamp := 0, «open» := 10, high := 20, low := 5, close := 12,
     volume := 3 },
   { timestamp := 1800000, «open» := 12, high := 25, low := 8, close := 14,
     volume := 4 },
   { timestamp := 3600000, «open» := 14, high := 16, low := 13, close := 15,
     volume := 2 }]

/-- The long position opened by a BUY at index 0 on a close of 2000 under the
default costs. -/
def demoPosition : Position :=
  { side := Side.LONG, size := 1, entryPrice := 2001, entryTime := 0,
    entryIndex := 0, meta := none, totalCost := 2003001/1000 }

/-- State holding `demoPosition` after paying its cost out of 10000. -/
def demoStateWithPos : RunState :=
  { capital := 7996999/1000, position := some demoPosition, trades := [] }

/-- A flat state whose capital cannot cover any demo entry. -/
def demoPoorState : RunState :=
  { capital := 1, position := none, trades := [] }

/-- The trade produced by force-closing `demoPosition` on the last candle of
`demoSeries2`. -/
def demoForcedTrade : Trade :=
  { entryTime := 0, exitTime := 3600000, side := Side.LONG, size := 1,
    entryPrice := 2001, exitPrice := 1999/2, pnl := -(2009001/2000),
    pnlPercent := -(33483350/667667), entryIndex := 0, exitIndex := 1,
    meta := none }

/-! ## Helper lemmas -/

@[simp] lemma hold_ne_sell : ("HOLD" = "SELL") = False := by decide

@[simp] lemma hold_ne_buy : ("HOLD" = "BUY") = False := by decide

@[simp] lemma buy_ne_sell : ("BUY" = "SELL") = False := by decide

@[simp] lemma sell_ne_buy : ("SELL" = "BUY") = False := by decide

/-- If every single step leaves the state unchanged, so does the whole loop. -/
lemma runLoopAux_fixed (eng : Engine) (strategy : Strategy)
    (hstep : ∀ processed c st, runStep eng strategy processed c st = st) :
    ∀ rest processed st, runLoopAux eng strategy processed rest st = st := by
  intro rest
  induction rest with
  | nil => intro processed st; rfl
  | cons c rest ih =>
      intro processed st
      rw [runLoopAux, hstep, ih]

/-- A step whose resolved action is HOLD leaves the state unchanged. -/
lemma applyAction_hold (eng : Engine) (i : ℕ) (candle : Candle)
    (size : Option ℚ) (meta : Option String) (st : RunState) :
    applyAction eng i candle (some "HOLD") size meta st = st := by
  unfold applyAction
  cases st.position <;> simp

/-- An empty trade list yields the all-zero report, for any equity series. -/
lemma calculateMetrics_nil (equityCurve : List EquityPoint)
    (initialCapital : ℚ) :
    calculateMetrics [] equityCurve initialCapital = zeroMetrics := by
  simp [calculateMetrics]

/-- A run whose every step is inert returns the empty result. -/
lemma run_of_inert (eng : Engine) (strategy : Strategy) (series : List Candle)
    (hstep : ∀ processed c st, runStep eng strategy processed c st = st) :
    run eng strategy series =
      { trades := [], metrics := zeroMetrics,
        finalCapital := eng.initialCapital } := by
  have hloop : runLoop eng strategy series = initState eng :=
    runLoopAux_fixed eng strategy hstep series [] (initState eng)
  unfold run
  rw [hloop]
  have hcf : closeFinal eng series (initState eng) = initState eng := by
    unfold closeFinal
    rfl
  rw [hcf]
  simp [initState, calculateMetrics_nil]

/-- Unfolding of the force close on a state holding an open position. -/
lemma closeFinal_open (eng : Engine) (series : List Candle) (st : RunState)
    (p : Position) (hne : series ≠ []) (hp : st.position = some p) :
    closeFinal eng series st =
      { st with
        capital := st.capital +
          ((series.getLast hne).close * (1 - eng.slippage) * p.size -
           (series.getLast hne).close * (1 - eng.slippage) * p.size *
             eng.commission)
        trades := st.trades ++
          [{ entryTime := p.entryTime
             exitTime := (series.getLast hne).timestamp
             side := p.side
             size := p.size
             entryPrice := p.entryPrice
             exitPrice := (series.getLast hne).close * (1 - eng.slippage)
             pnl := if p.side = Side.LONG then
                 (series.getLast hne).close * (1 - eng.slippage) * p.size -
                 (series.getLast hne).close * (1 - eng.slippage) * p.size *
                   eng.commission - p.totalCost
               else
                 p.totalCost -
                 ((series.getLast hne).close * (1 - eng.slippage) * p.size -
                  (series.getLast hne).close * (1 - eng.slippage) * p.size *
                    eng.commission)
             pnlPercent := (if p.side = Side.LONG then
                 (series.getLast hne).close * (1 - eng.slippage) * p.size -
                 (series.getLast hne).close * (1 - eng.slippage) * p.size *
                   eng.commission - p.totalCost
               else
                 p.totalCost -
                 ((series.getLast hne).close * (1 - eng.slippage) * p.size -
                  (series.getLast hne).close * (1 - eng.slippage) * p.size *
                    eng.commission)) / p.totalCost * 100
             entryIndex := p.entryIndex
             exitIndex := series.length - 1
             meta := p.meta }] } := by
  unfold closeFinal
  rw [hp, List.getLast?_eq_getLast series hne]
  cases hside : p.side <;> simp [hside]

/-! ## Claim theorems -/

/-- C1: the spec says `run` records an EquityPoint per step and computes the
metrics from that recorded equity series.  The code never records one
(`equityCurve` is undeclared; the push raises a caught ReferenceError) and
calls `calculateMetrics` with the literal `[]`.  Demonstration at a concrete
losing run: exactly one trade with negative P&L and final capital below the
initial capital, yet `maxDrawdown`, `maxDrawdownPercent` and `sharpeRatio` in
the returned metrics are all 0 — while the same metrics computed over the
equity series the spec describes (`intendedEquityCurve`) show a strictly
positive drawdown. -/
theorem c1_metrics_ignore_equity :
    (run demoEngine buySellStrategy demoSeries2).trades.length = 1 ∧
    (run demoEngine buySellStrategy demoSeries2).metrics.netPnL < 0 ∧
    (run demoEngine buySellStrategy demoSeries2).finalCapital <
      demoEngine.initialCapital ∧
    (run demoEngine buySellStrategy demoSeries2).metrics.maxDrawdown = 0 ∧
    (run demoEngine buySellStrategy demoSeries2).metrics.maxDrawdownPercent = 0 ∧
    (run demoEngine buySellStrategy demoSeries2).metrics.sharpeRatio = 0 ∧
    0 < (calculateMetrics (run demoEngine buySellStrategy demoSeries2).trades
        (intendedEquityCurve demoEngine buySellStrategy [] demoSeries2
          (initState demoEngine))
        demoEngine.initialCapital).maxDrawdown := by
  norm_num [run, runLoop, runLoopAux, runStep, mkCtx, applyAction, jsSizeDefault,
    demoEngine, buySellStrategy, demoSeries2, mkCandle, buySig, sellSig, holdObj,
    initState, closeFinal, calculateMetrics, zeroMetrics, fix2, fix2R,
    drawdownStats, equityReturns, sharpeRatioOf, intendedEquityCurve,
    totalEquity, round_eq]

/-- C9 counterexample: the label `"1H"` does not match `^\d+(m|h|d)$` (the
regex is case-sensitive and has no uppercase `H`), yet `timeframeToMs`
succeeds on it because the source lowercases the label first; so failure is
not equivalent to the raw label failing the pattern. -/
theorem c9_counterexample :
    matchesTfPattern "1H" = false ∧ timeframeToMs "1H" = some 3600000 ∧
    ¬ (∀ s : String, timeframeToMs s = none ↔ matchesTfPattern s = false) := by
  refine ⟨by decide, by decide, fun h => ?_⟩
  have h1 : timeframeToMs "1H" = none := (h "1H").mpr (by decide)
  have h2 : timeframeToMs "1H" = some 3600000 := by decide
  rw [h1] at h2
  exact Option.noConfusion h2

/-- C10: the engine reads the action exclusively from the `signal` field of
the returned object; any object whose `signal` field is absent — for example
one carrying only `action: 'BUY'` — leaves capital, position and the trade
list unchanged at that step. -/
theorem c10_action_field_ignored (eng : Engine) (strategy : Strategy)
    (processed : List Candle) (c : Candle) (st : RunState) (sig : Signal)
    (hs : strategy (mkCtx processed c) = Except.ok (some sig))
    (hsig : sig.signal = none) :
    runStep eng strategy processed c st = st := by
  unfold runStep
  rw [hs]
  show applyAction eng processed.length c sig.signal sig.size sig.meta st = st
  unfold applyAction
  cases st.position <;> simp [hsig]

/-- C10 witness: a strategy returning `{ action: 'BUY' }` (no `signal` field)
is a no-op on the initial state. -/
theorem c10_action_field_ignored_witness :
    runStep demoEngine actionOnlyStrategy [] (mkCandle 0 2000)
      (initState demoEngine) = initState demoEngine :=
  c10_action_field_ignored demoEngine actionOnlyStrategy [] (mkCandle 0 2000)
    (initState demoEngine) actionOnlySig rfl rfl

/-- C3: a SELL while any position is open closes it at
`close * (1 - slippage)`: net revenue is the revenue minus commission on it,
P&L is `netRevenue − totalCost` for a LONG and `totalCost − netRevenue` for a
SHORT, `pnlPercent = pnl / totalCost * 100`; exactly one Trade is appended,
`netRevenue` is added to capital, and the position is cleared. -/
theorem c3_sell_closes_position (eng : Engine) (i : ℕ) (candle : Candle)
    (size : Option ℚ) (meta : Option String) (st : RunState) (p : Position)
    (exitPrice netRevenue pnl : ℚ)
    (hp : st.position = some p)
    (he : exitPrice = candle.close * (1 - eng.slippage))
    (hn : netRevenue = exitPrice * p.size - exitPrice * p.size * eng.commission)
    (hpnl : pnl = if p.side = Side.LONG then netRevenue - p.totalCost
                  else p.totalCost - netRevenue) :
    applyAction eng i candle (some "SELL") size meta st =
      { capital := st.capital + netRevenue
        position := none
        trades := st.trades ++
          [{ entryTime := p.entryTime, exitTime := candle.timestamp,
             side := p.side, size := p.size, entryPrice := p.entryPrice,
             exitPrice := exitPrice, pnl := pnl,
             pnlPercent := pnl / p.totalCost * 100,
             entryIndex := p.entryIndex, exitIndex := i, meta := p.meta }] } := by
  subst he
  subst hn
  subst hpnl
  unfold applyAction
  rw [hp]
  cases hside : p.side <;> simp [hside]

/-- C3 witness: closing the demo long position with a SELL at a close of 1000. -/
theorem c3_sell_closes_position_witness :
    demoStateWithPos.position = some demoPosition ∧
    applyAction demoEngine 1 (mkCandle 3600000 1000) (some "SELL") none none
      demoStateWithPos =
    { capital := demoStateWithPos.capital + 1997001/2000
      position := none
      trades := [{ entryTime := 0, exitTime := 3600000, side := Side.LONG,
                   size := 1, entryPrice := 2001, exitPrice := 1999/2,
                   pnl := -(2009001/2000),
                   pnlPercent := -(2009001/2000) / (2003001/1000) * 100,
                   entryIndex := 0, exitIndex := 1, meta := none }] } := by
  refine ⟨rfl, ?_⟩
  rw [c3_sell_closes_position demoEngine 1 (mkCandle 3600000 1000) none none
    demoStateWithPos demoPosition (1999/2) (1997001/2000) (-(2009001/2000))
    rfl (by norm_num [mkCandle, demoEngine])
    (by norm_num [demoPosition, demoEngine])
    (by norm_num [demoPosition])]
  norm_num [demoStateWithPos, demoPosition, mkCandle]

/-- C4: opening an order (BUY while flat opens a LONG at
`close * (1 + slippage)`, SELL while flat opens a SHORT at
`close * (1 - slippage)`) is funded only when capital covers
`entryPrice*size + commission`; otherwise it is a silent no-op — no error,
and capital, position and the trade list are unchanged.  When funded, a
position opens and capital decreases by exactly that total cost. -/
theorem c4_insufficient_capital_no_op (eng : Engine) (i : ℕ) (candle : Candle)
    (action : Option String) (size : Option ℚ) (meta : Option String)
    (st : RunState) (entryPrice totalCost : ℚ)
    (hflat : st.position = none)
    (hact : action = some "BUY" ∨ action = some "SELL")
    (hep : entryPrice =
      if action = some "BUY" then candle.close * (1 + eng.slippage)
      else candle.close * (1 - eng.slippage))
    (htc : totalCost = entryPrice * jsSizeDefault size +
           entryPrice * jsSizeDefault size * eng.commission) :
    (st.capital < totalCost → applyAction eng i candle action size meta st = st) ∧
    (st.capital ≥ totalCost →
      applyAction eng i candle action size meta st =
        { capital := st.capital - totalCost
          position := some
            { side := if action = some "BUY" then Side.LONG else Side.SHORT
              size := jsSizeDefault size
              entryPrice := entryPrice
              entryTime := candle.timestamp
              entryIndex := i
              meta := meta
              totalCost := totalCost }
          trades := st.trades }) := by
  subst hep
  subst htc
  rcases hact with h | h <;> subst h <;>
    refine ⟨fun hc => ?_, fun hc => ?_⟩ <;>
    unfold applyAction <;> rw [hflat] <;>
    simp only [Option.some.injEq, buy_ne_sell, sell_ne_buy, reduceIte,
      ge_iff_le] at hc ⊢
  · rw [if_neg (not_le.mpr hc)]
  · rw [if_pos hc]
  · rw [if_neg (not_le.mpr hc)]
  · rw [if_pos hc]

/-- C4 witness: a BUY on a close of 2000 with capital 1 is silently skipped. -/
theorem c4_insufficient_capital_no_op_witness :
    demoPoorState.capital < 2003001/1000 ∧
    applyAction demoEngine 0 (mkCandle 0 2000) (some "BUY") none none
      demoPoorState = demoPoorState := by
  refine ⟨by norm_num [demoPoorState], ?_⟩
  exact (c4_insufficient_capital_no_op demoEngine 0 (mkCandle 0 2000)
    (some "BUY") none none demoPoorState 2001 (2003001/1000) rfl (Or.inl rfl)
    (by norm_num [mkCandle, demoEngine])
    (by norm_num [demoEngine, jsSizeDefault])).1 (by norm_num [demoPoorState])

/-- Signal application preserves the trade/position index bounds: trades
closed at step `i` get `exitIndex = i`; positions opened at step `i` get
`entryIndex = i`. -/
lemma applyAction_index_inv (eng : Engine) (i : ℕ) (c : Candle)
    (action : Option String) (size : Option ℚ) (meta : Option String)
    (st : RunState)
    (hT : ∀ t ∈ st.trades, t.entryIndex ≤ t.exitIndex ∧ t.exitIndex < i)
    (hP : ∀ p, st.position = some p → p.entryIndex < i) :
    (∀ t ∈ (applyAction eng i c action size meta st).trades,
        t.entryIndex ≤ t.exitIndex ∧ t.exitIndex < i + 1) ∧
    (∀ p, (applyAction eng i c action size meta st).position = some p →
        p.entryIndex < i + 1) := by
  have hT' : ∀ t ∈ st.trades, t.entryIndex ≤ t.exitIndex ∧ t.exitIndex < i + 1 :=
    fun t ht => ⟨(hT t ht).1, Nat.lt_succ_of_lt (hT t ht).2⟩
  have hP' : ∀ p, st.position = some p → p.entryIndex < i + 1 :=
    fun p hp => Nat.lt_succ_of_lt (hP p hp)
  cases hpos : st.position with
  | none =>
      simp only [applyAction, hpos]
      split_ifs with hb hc hs hc
      · refine ⟨hT', ?_⟩
        intro p hp
        simp only [Option.some.injEq] at hp
        subst hp
        exact Nat.lt_succ_self i
      · exact ⟨hT', hP'⟩
      · refine ⟨hT', ?_⟩
        intro p hp
        simp only [Option.some.injEq] at hp
        subst hp
        exact Nat.lt_succ_self i
      · exact ⟨hT', hP'⟩
      · exact ⟨hT', hP'⟩
  | some p0 =>
      simp only [applyAction, hpos]
      split_ifs with hs
      · refine ⟨?_, ?_⟩
        · intro t ht
          rcases List.mem_append.mp ht with hold | hnew
          · exact hT' t hold
          · simp only [List.mem_singleton] at hnew
            subst hnew
            exact ⟨Nat.le_of_lt (hP p0 hpos), Nat.lt_succ_self i⟩
        · intro q hq
          simp at hq
      · exact ⟨hT', hP'⟩

/-- One loop step preserves the index bounds, growing them by one. -/
lemma runStep_index_inv (eng : Engine) (strategy : Strategy)
    (processed : List Candle) (c : Candle) (st : RunState)
    (hT : ∀ t ∈ st.trades,
        t.entryIndex ≤ t.exitIndex ∧ t.exitIndex < processed.length)
    (hP : ∀ p, st.position = some p → p.entryIndex < processed.length) :
    (∀ t ∈ (runStep eng strategy processed c st).trades,
        t.entryIndex ≤ t.exitIndex ∧ t.exitIndex < processed.length + 1) ∧
    (∀ p, (runStep eng strategy processed c st).position = some p →
        p.entryIndex < processed.length + 1) := by
  unfold runStep
  cases hstrat : strategy (mkCtx processed c) with
  | error e =>
      exact ⟨fun t ht => ⟨(hT t ht).1, Nat.lt_succ_of_lt (hT t ht).2⟩,
        fun p hp => Nat.lt_succ_of_lt (hP p hp)⟩
  | ok sig =>
      exact applyAction_index_inv eng processed.length c _ _ _ st hT hP

/-- The loop invariant: all recorded trade indices stay below the number of
processed candles, and the open position was entered at a processed index. -/
lemma runLoopAux_index_inv (eng : Engine) (strategy : Strategy) :
    ∀ (rest processed : List Candle) (st : RunState),
    (∀ t ∈ st.trades,
        t.entryIndex ≤ t.exitIndex ∧ t.exitIndex < processed.length) →
    (∀ p, st.position = some p → p.entryIndex < processed.length) →
    (∀ t ∈ (runLoopAux eng strategy processed rest st).trades,
        t.entryIndex ≤ t.exitIndex ∧
        t.exitIndex < processed.length + rest.length) ∧
    (∀ p, (runLoopAux eng strategy processed rest st).position = some p →
        p.entryIndex < processed.length + rest.length) := by
  intro rest
  induction rest with
  | nil =>
      intro processed st hT hP
      rw [runLoopAux]
      simpa using ⟨hT, hP⟩
  | cons c rest ih =>
      intro processed st hT hP
      rw [runLoopAux]
      have hstep := runStep_index_inv eng strategy processed c st hT hP
      have hlen : (processed ++ [c]).length = processed.length + 1 := by
        simp
      have hrec := ih (processed ++ [c]) (runStep eng strategy processed c st)
        (by rw [hlen]; exact hstep.1) (by rw [hlen]; exact hstep.2)
      rw [hlen] at hrec
      have harith : processed.length + 1 + rest.length =
          processed.length + (c :: rest).length := by
        simp
        omega
      rw [harith] at hrec
      exact hrec

/-- C2: over a nonempty primary series, if a position is still open after the
last step, `run` appends exactly one additional Trade whose `exitIndex` is
`len(primarySeries) - 1` and whose `exitPrice` is the last candle's
`close * (1 - slippage)`, with P&L by the same commission/slippage formulas as
a normal close, and its net revenue is credited to the final capital; no open
position is left unaccounted. -/
theorem c2_force_close_at_end (eng : Engine) (strategy : Strategy)
    (series : List Candle) (p : Position) (netRevenue pnl : ℚ)
    (hne : series ≠ [])
    (hp : (runLoop eng strategy series).position = some p)
    (hn : netRevenue =
      (series.getLast hne).close * (1 - eng.slippage) * p.size -
      (series.getLast hne).close * (1 - eng.slippage) * p.size * eng.commission)
    (hpnl : pnl = if p.side = Side.LONG then netRevenue - p.totalCost
                  else p.totalCost - netRevenue) :
    (run eng strategy series).trades =
      (runLoop eng strategy series).trades ++
      [{ entryTime := p.entryTime
         exitTime := (series.getLast hne).timestamp
         side := p.side, size := p.size, entryPrice := p.entryPrice
         exitPrice := (series.getLast hne).close * (1 - eng.slippage)
         pnl := pnl, pnlPercent := pnl / p.totalCost * 100
         entryIndex := p.entryIndex, exitIndex := series.length - 1
         meta := p.meta }] ∧
    (run eng strategy series).finalCapital =
      (runLoop eng strategy series).capital + netRevenue := by
  subst hn
  subst hpnl
  have hcf := closeFinal_open eng series (runLoop eng strategy series) p hne hp
  unfold run
  rw [hcf]
  exact ⟨rfl, rfl⟩

/-- C2 witness: a buy-and-hold run over two candles ends with the open long
force-closed on the last candle. -/
theorem c2_force_close_at_end_witness :
    demoSeries2 ≠ [] ∧
    (runLoop demoEngine buyHoldStrategy demoSeries2).position =
      some demoPosition ∧
    (run demoEngine buyHoldStrategy demoSeries2).trades =
      (runLoop demoEngine buyHoldStrategy demoSeries2).trades ++
      [{ entryTime := 0, exitTime := 3600000, side := Side.LONG, size := 1,
         entryPrice := 2001, exitPrice := 1999/2, pnl := -(2009001/2000),
         pnlPercent := -(2009001/2000) / (2003001/1000) * 100,
         entryIndex := 0, exitIndex := demoSeries2.length - 1, meta := none }] ∧
    (run demoEngine buyHoldStrategy demoSeries2).finalCapital =
      (runLoop demoEngine buyHoldStrategy demoSeries2).capital + 1997001/2000 := by
  have hne : demoSeries2 ≠ [] := by simp [demoSeries2]
  have hp : (runLoop demoEngine buyHoldStrategy demoSeries2).position =
      some demoPosition := by
    norm_num [runLoop, runLoopAux, runStep, mkCtx, applyAction, jsSizeDefault,
      demoEngine, buyHoldStrategy, demoSeries2, mkCandle, buySig, holdObj,
      initState, demoPosition]
  have h := c2_force_close_at_end demoEngine buyHoldStrategy demoSeries2
    demoPosition (1997001/2000) (-(2009001/2000)) hne hp
    (by norm_num [demoSeries2, mkCandle, demoEngine, demoPosition, List.getLast])
    (by norm_num [demoPosition])
  refine ⟨hne, hp, ?_, h.2⟩
  rw [h.1]
  norm_num [demoSeries2, mkCandle, demoPosition, demoEngine, List.getLast]

/-- C5: for any data, a strategy whose signal is HOLD at every step yields an
empty trade list, a final capital equal to the initial capital, and the
all-zero metrics record. -/
theorem c5_hold_strategy_inert (eng : Engine) (strategy : Strategy)
    (series : List Candle)
    (h : ∀ ctx : Ctx, ∃ sig : Signal,
        strategy ctx = Except.ok (some sig) ∧ sig.signal = some "HOLD") :
    run eng strategy series =
      { trades := [], metrics := zeroMetrics,
        finalCapital := eng.initialCapital } := by
  refine run_of_inert eng strategy series ?_
  intro processed c st
  obtain ⟨sig, hs, hsig⟩ := h (mkCtx processed c)
  unfold runStep
  rw [hs]
  show applyAction eng processed.length c sig.signal sig.size sig.meta st = st
  rw [hsig]
  exact applyAction_hold eng processed.length c sig.size sig.meta st

/-- C5 witness: the always-HOLD strategy on the two-candle demo series. -/
theorem c5_hold_strategy_inert_witness :
    run demoEngine alwaysHoldStrategy demoSeries2 =
      { trades := [], metrics := zeroMetrics,
        finalCapital := demoEngine.initialCapital } :=
  c5_hold_strategy_inert demoEngine alwaysHoldStrategy demoSeries2
    (fun _ => ⟨holdObj, rfl, rfl⟩)

/-- C6: any step at which the strategy call throws — whatever the strategy
does at other steps — is caught and applies no signal: capital, position and
the trade list are unchanged by that step; and in particular a strategy that
throws at every step still completes, returning zero trades and a final
capital equal to the initial capital. -/
theorem c6_strategy_error_skipped (eng : Engine) (strategy : Strategy)
    (series processed : List Candle) (c : Candle) (st : RunState) :
    (∀ e, strategy (mkCtx processed c) = Except.error e →
        runStep eng strategy processed c st = st) ∧
    ((∀ ctx : Ctx, strategy ctx = Except.error ()) →
      run eng strategy series =
        { trades := [], metrics := zeroMetrics,
          finalCapital := eng.initialCapital }) := by
  constructor
  · intro e hs
    unfold runStep
    rw [hs]
  · intro h
    refine run_of_inert eng strategy series ?_
    intro processed' c' st'
    unfold runStep
    rw [h]

/-- C6 witness: a strategy that throws only at step 1 is a no-op at that step,
and the always-throwing strategy completes the two-candle run untouched. -/
theorem c6_strategy_error_skipped_witness :
    throwAtOneStrategy (mkCtx [mkCandle 0 2000] (mkCandle 3600000 1000)) =
      Except.error () ∧
    runStep demoEngine throwAtOneStrategy [mkCandle 0 2000]
      (mkCandle 3600000 1000) (initState demoEngine) = initState demoEngine ∧
    run demoEngine throwingStrategy demoSeries2 =
      { trades := [], metrics := zeroMetrics,
        finalCapital := demoEngine.initialCapital } :=
  ⟨rfl,
   (c6_strategy_error_skipped demoEngine throwAtOneStrategy demoSeries2
      [mkCandle 0 2000] (mkCandle 3600000 1000) (initState demoEngine)).1
      () rfl,
   (c6_strategy_error_skipped demoEngine throwingStrategy demoSeries2
      [mkCandle 0 2000] (mkCandle 3600000 1000) (initState demoEngine)).2
      (fun _ => rfl)⟩

/-- C7 counterexample: the claim requires `exitIndex > entryIndex` for every
trade, but a position opened on the last candle is force-closed at that same
candle: with a single-candle series and an always-BUY strategy, the returned
trade has `entryIndex = exitIndex = 0`. -/
theorem c7_counterexample :
    (run demoEngine alwaysBuyStrategy demoSeries1).trades.map
      (fun t => (t.entryIndex, t.exitIndex)) = [(0, 0)] ∧
    ¬ (∀ t ∈ (run demoEngine alwaysBuyStrategy demoSeries1).trades,
        t.entryIndex < t.exitIndex) := by
  have hm : (run demoEngine alwaysBuyStrategy demoSeries1).trades.map
      (fun t => (t.entryIndex, t.exitIndex)) = [(0, 0)] := by
    norm_num [run, runLoop, runLoopAux, runStep, mkCtx, applyAction,
      jsSizeDefault, demoEngine, alwaysBuyStrategy, demoSeries1, mkCandle,
      buySig, initState, closeFinal]
  refine ⟨hm, fun hall => ?_⟩
  rcases htr : (run demoEngine alwaysBuyStrategy demoSeries1).trades with
    _ | ⟨t, rest⟩
  · rw [htr] at hm
    simp at hm
  · rw [htr] at hm
    simp only [List.map_cons, List.cons.injEq, Prod.mk.injEq] at hm
    have hmem : t ∈ (run demoEngine alwaysBuyStrategy demoSeries1).trades := by
      rw [htr]
      exact List.mem_cons_self t rest
    have hlt := hall t hmem
    obtain ⟨⟨h1, h2⟩, _⟩ := hm
    omega

/-- C7 (amended): for every completed run, every Trade satisfies
`entryIndex ≤ exitIndex` (equality only for a force close on the entry
candle), and both indices lie within `[0, len(primarySeries) - 1]`. -/
theorem c7_trade_indices_amended (eng : Engine) (strategy : Strategy)
    (series : List Candle) :
    ∀ t ∈ (run eng strategy series).trades,
      t.entryIndex ≤ t.exitIndex ∧ t.entryIndex ≤ series.length - 1 ∧
      t.exitIndex ≤ series.length - 1 := by
  have hinv := runLoopAux_index_inv eng strategy series [] (initState eng)
    (by intro t ht; simp [initState] at ht)
    (by intro p hp; simp [initState] at hp)
  have hz : (([] : List Candle)).length + series.length = series.length := by
    simp
  rw [hz] at hinv
  intro t ht
  simp only [run] at ht
  rcases hpos : (runLoop eng strategy series).position with _ | p
  · simp only [closeFinal, hpos] at ht
    have hb := hinv.1 t ht
    omega
  · rcases hgl : series.getLast? with _ | lc
    · have hempty : series = [] := List.getLast?_eq_none_iff.mp hgl
      subst hempty
      have hb := hinv.2 p hpos
      simp at hb
    · simp only [closeFinal, hpos, hgl] at ht
      rcases List.mem_append.mp ht with hold | hnew
      · have hb := hinv.1 t hold
        omega
      · simp only [List.mem_singleton] at hnew
        subst hnew
        have hb := hinv.2 p hpos
        refine ⟨?_, ?_, ?_⟩ <;> simp <;> omega

/-- C7 witness: the force-closed trade of a buy-and-hold run over two candles
satisfies the amended index bounds. -/
theorem c7_trade_indices_amended_witness :
    demoForcedTrade ∈ (run demoEngine buyHoldStrategy demoSeries2).trades ∧
    (demoForcedTrade.entryIndex ≤ demoForcedTrade.exitIndex ∧
     demoForcedTrade.entryIndex ≤ demoSeries2.length - 1 ∧
     demoForcedTrade.exitIndex ≤ demoSeries2.length - 1) := by
  have hm : demoForcedTrade ∈
      (run demoEngine buyHoldStrategy demoSeries2).trades := by
    norm_num [run, runLoop, runLoopAux, runStep, mkCtx, applyAction,
      jsSizeDefault, demoEngine, buyHoldStrategy, demoSeries2, mkCandle,
      buySig, holdObj, initState, closeFinal, demoForcedTrade, List.getLast]
  exact ⟨hm, c7_trade_indices_amended demoEngine buyHoldStrategy demoSeries2
    demoForcedTrade hm⟩


/-- The first element surviving `dropWhile p` fails `p`. -/
lemma dropWhile_head_false (p : Char → Bool) :
    ∀ (l : List Char) (u : Char) (r : List Char),
      l.dropWhile p = u :: r → p u = false := by
  intro l
  induction l with
  | nil => intro u r h; simp [List.dropWhile] at h
  | cons a l ih =>
      intro u r h
      rw [List.dropWhile] at h
      by_cases ha : p a
      · rw [ha] at h
        exact ih u r h
      · rw [Bool.of_not_eq_true ha] at h
        simp at h
        rw [h.1] at ha
        exact Bool.of_not_eq_true ha

/-- A decimal digit is not one of the unit characters. -/
lemma digit_not_unit (x : Char) (hx : x.isDigit = true) :
    (x = 'm' || x = 'h' || x = 'd') = false := by
  by_cases h1 : x = 'm'
  · subst h1; simp at hx
  by_cases h2 : x = 'h'
  · subst h2; simp at hx
  by_cases h3 : x = 'd'
  · subst h3; simp at hx
  simp [h1, h2, h3]

/-- The code-side matcher succeeds exactly when the spec-side pattern test
accepts the same character list. -/
lemma matchTf_isSome (cs : List Char) : (matchTf cs).isSome = patternB cs := by
  have hsplit : cs.takeWhile Char.isDigit ++ cs.dropWhile Char.isDigit = cs :=
    List.takeWhile_append_dropWhile Char.isDigit cs
  have hdigits : ∀ x ∈ cs.takeWhile Char.isDigit, x.isDigit = true :=
    fun x hx => List.mem_takeWhile_imp hx
  rcases h : cs.dropWhile Char.isDigit with _ | ⟨u, _ | ⟨v, rest'⟩⟩
  · -- the whole label is digits: no unit character, both sides false
    rw [h, List.append_nil] at hsplit
    unfold matchTf
    rw [h]
    rcases hcs : cs.getLast? with _ | x
    · simp [patternB, hcs]
    · have hx : x ∈ cs := List.mem_of_mem_getLast? (Option.mem_def.mpr hcs)
      rw [← hsplit] at hx
      have hxd := hdigits x hx
      simp [patternB, hcs, digit_not_unit x hxd]
  · -- digits followed by exactly one character
    rw [h] at hsplit
    unfold matchTf
    rw [h]
    have hgl : cs.getLast? = some u := by
      rw [← hsplit]
      exact List.getLast?_concat _
    have hdl : cs.dropLast = cs.takeWhile Char.isDigit := by
      conv_lhs => rw [← hsplit]
      exact List.dropLast_concat
    have hall : cs.dropLast.all Char.isDigit = true := by
      rw [hdl]
      exact List.all_eq_true.mpr hdigits
    simp only [patternB, hgl, hdl, hall]
    by_cases hne : cs.takeWhile Char.isDigit = []
    · simp [hne]
    · by_cases hu : u = 'm' ∨ u = 'h' ∨ u = 'd'
      · have hb : (u = 'm' || u = 'h' || u = 'd') = true := by
          rcases hu with h1 | h1 | h1 <;> simp [h1]
        simp [hne, hu, hb, List.isEmpty_iff]
      · have hb : (u = 'm' || u = 'h' || u = 'd') = false := by
          push_neg at hu
          simp [hu.1, hu.2.1, hu.2.2]
        have hnu : ¬ (cs.takeWhile Char.isDigit ≠ [] ∧
            (u = 'm' ∨ u = 'h' ∨ u = 'd')) := fun hc => hu hc.2
        rw [if_neg hnu]
        simp [hb]
  · -- at least two trailing non-digit characters: both sides false
    rw [h] at hsplit
    unfold matchTf
    rw [h]
    have hu : Char.isDigit u = false := dropWhile_head_false _ cs u _ h
    have hmem : u ∈ cs.dropLast := by
      rw [← hsplit, List.dropLast_append_of_ne_nil _ (by simp)]
      simp
    have hall : cs.dropLast.all Char.isDigit = false :=
      List.all_eq_false.mpr ⟨u, hmem, by simp [hu]⟩
    simp [patternB, hall]
    rcases hgl : cs.getLast? with _ | x
    · simp
    · simp [hall]


/-- A successful match always captures one of the unit characters. -/
lemma matchTf_unit (cs : List Char) (n : ℕ) (u : Char)
    (h : matchTf cs = some (n, u)) : u = 'm' ∨ u = 'h' ∨ u = 'd' := by
  unfold matchTf at h
  rcases hd : cs.dropWhile Char.isDigit with _ | ⟨x, _ | ⟨y, r⟩⟩
  · rw [hd] at h
    simp at h
  · rw [hd] at h
    dsimp only at h
    split_ifs at h with hc
    simp at h
    rw [← h.2]
    exact hc.2
  · rw [hd] at h
    simp at h

/-- C9 (amended): timeframe parsing fails exactly when the *lowercased* label
does not match `^\d+(m|h|d)$`, and on success it maps m/h/d to minutes,
hours and days in milliseconds of the captured number. -/
theorem c9_timeframe_amended (s : String) :
    (timeframeToMs s = none ↔
      matchesTfPattern ⟨s.toList.map Char.toLower⟩ = false) ∧
    (∀ n u, matchTf (s.toList.map Char.toLower) = some (n, u) →
      timeframeToMs s = some (n * (if u = 'm' then 60 * 1000
        else if u = 'h' then 60 * 60 * 1000 else 24 * 60 * 60 * 1000))) := by
  constructor
  · unfold timeframeToMs
    have he := matchTf_isSome (s.toList.map Char.toLower)
    have hpat : matchesTfPattern ⟨s.toList.map Char.toLower⟩ =
        patternB (s.toList.map Char.toLower) := rfl
    rw [hpat, ← he]
    rcases hm : matchTf (s.toList.map Char.toLower) with _ | ⟨n, u⟩
    · simp
    · have hu := matchTf_unit _ n u hm
      constructor
      · intro hnone
        rcases hu with h1 | h1 | h1 <;> subst h1 <;> simp at hnone
      · intro hfalse
        simp at hfalse
  · intro n u hm
    unfold timeframeToMs
    rw [hm]
    rcases matchTf_unit _ n u hm with h1 | h1 | h1 <;> subst h1 <;> simp <;>
      omega


/-- C9 witness: `"5m"` matches and maps to five minutes in milliseconds. -/
theorem c9_timeframe_amended_witness :
    matchTf ("5m".toList.map Char.toLower) = some (5, 'm') ∧
    timeframeToMs "5m" = some (5 * (if 'm' = 'm' then 60 * 1000
      else if 'm' = 'h' then 60 * 60 * 1000 else 24 * 60 * 60 * 1000)) :=
  ⟨by decide, (c9_timeframe_amended "5m").2 5 'm' (by decide)⟩

/-! ## Fold lemmas for the bucket extrema and volume sum -/

lemma foldl_max_le_init (l : List ℚ) (a : ℚ) : a ≤ l.foldl max a := by
  induction l generalizing a with
  | nil => exact le_refl a
  | cons b l ih => exact le_trans (le_max_left a b) (ih (max a b))

lemma foldl_max_le_mem (l : List ℚ) (a b : ℚ) (hb : b ∈ l) :
    b ≤ l.foldl max a := by
  induction l generalizing a with
  | nil => simp at hb
  | cons c l ih =>
      rcases List.mem_cons.mp hb with h | h
      · subst h
        exact le_trans (le_max_right a b) (foldl_max_le_init l (max a b))
      · exact ih (max a c) h

lemma foldl_max_cases (l : List ℚ) (a : ℚ) :
    l.foldl max a = a ∨ l.foldl max a ∈ l := by
  induction l generalizing a with
  | nil => exact Or.inl rfl
  | cons b l ih =>
      rcases ih (max a b) with h | h
      · rcases max_choice a b with hm | hm
        · exact Or.inl (by rw [List.foldl_cons, h, hm])
        · exact Or.inr
            (by rw [List.foldl_cons, h, hm]; exact List.mem_cons_self b l)
      · exact Or.inr (List.mem_cons_of_mem b h)

lemma foldl_min_ge_init (l : List ℚ) (a : ℚ) : l.foldl min a ≤ a := by
  induction l generalizing a with
  | nil => exact le_refl a
  | cons b l ih => exact le_trans (ih (min a b)) (min_le_left a b)

lemma foldl_min_ge_mem (l : List ℚ) (a b : ℚ) (hb : b ∈ l) :
    l.foldl min a ≤ b := by
  induction l generalizing a with
  | nil => simp at hb
  | cons c l ih =>
      rcases List.mem_cons.mp hb with h | h
      · subst h
        exact le_trans (foldl_min_ge_init l (min a b)) (min_le_right a b)
      · exact ih (min a c) h

lemma foldl_min_cases (l : List ℚ) (a : ℚ) :
    l.foldl min a = a ∨ l.foldl min a ∈ l := by
  induction l generalizing a with
  | nil => exact Or.inl rfl
  | cons b l ih =>
      rcases ih (min a b) with h | h
      · rcases min_choice a b with hm | hm
        · exact Or.inl (by rw [List.foldl_cons, h, hm])
        · exact Or.inr
            (by rw [List.foldl_cons, h, hm]; exact List.mem_cons_self b l)
      · exact Or.inr (List.mem_cons_of_mem b h)

lemma foldl_add_eq_sum (l : List ℚ) (a : ℚ) :
    l.foldl (· + ·) a = a + l.sum := by
  induction l generalizing a with
  | nil => simp
  | cons b l ih =>
      rw [List.foldl_cons, ih, List.sum_cons]
      ring

/-! ## Bucket key and builder lemmas -/

/-- A bucket candle carries its key as timestamp (`new Date(key)`). -/
lemma bucketBuilder_timestamp (interval : ℕ) (candles : List Candle) (k : ℤ)
    (c : Candle) (hb : bucketBuilder interval candles k = some c) :
    c.timestamp = k := by
  unfold bucketBuilder at hb
  rcases hg : candles.filter
      (fun x => decide (bucketOf interval x.timestamp = k)) with _ | ⟨g₀, gs⟩ <;>
    rw [hg] at hb <;> dsimp only at hb
  · exact absurd hb (by simp)
  · simp only [Option.some.injEq] at hb
    rw [← hb]

/-- When every key builds a candle, the output timestamps are the keys. -/
lemma filterMap_timestamps (f : ℤ → Option Candle)
    (hf : ∀ k c, f k = some c → c.timestamp = k) :
    ∀ ks : List ℤ, (∀ k ∈ ks, (f k).isSome = true) →
      (ks.filterMap f).map Candle.timestamp = ks := by
  intro ks
  induction ks with
  | nil => intro _; rfl
  | cons k ks ih =>
      intro h
      have hk := h k (List.mem_cons_self k ks)
      rcases hfk : f k with _ | c
      · rw [hfk] at hk
        simp at hk
      · simp only [List.filterMap_cons, hfk, List.map_cons]
        rw [hf k c hfk, ih (fun x hx => h x (List.mem_cons_of_mem k hx))]

/-- The sorted key list holds exactly the keys of nonempty buckets. -/
lemma mem_sorted_bucket_keys (interval : ℕ) (candles : List Candle) (k : ℤ) :
    k ∈ List.insertionSort (· ≤ ·)
        ((candles.map fun c => bucketOf interval c.timestamp).dedup) ↔
      candles.filter
        (fun c => decide (bucketOf interval c.timestamp = k)) ≠ [] := by
  rw [(List.perm_insertionSort (· ≤ ·) _).mem_iff, List.mem_dedup]
  constructor
  · intro hk
    obtain ⟨c, hc, hck⟩ := List.mem_map.mp hk
    intro hfil
    have := List.filter_eq_nil_iff.mp hfil c hc
    simp [hck] at this
  · intro hfil
    rcases hg : candles.filter
        (fun c => decide (bucketOf interval c.timestamp = k)) with _ | ⟨c, g⟩
    · exact absurd hg hfil
    · have hcm := hg ▸ List.mem_cons_self c g
      have hmf := List.mem_filter.mp hcm
      exact List.mem_map.mpr ⟨c, hmf.1, by simpa using hmf.2⟩

/-- C8: for a time-ascending input and a valid timeframe, aggregation emits
one candle per non-empty bucket (bucket key = `floor(ts/ms)*ms`), with the
bucket keys strictly ascending, and within each bucket the output `open` is
the first input candle's open, `close` the last input candle's close, `high`
an upper bound of — and attained by — the bucket highs, `low` a lower bound
of — and attained by — the bucket lows, and `volume` the bucket's volume sum. -/
theorem c8_aggregate_buckets (candles : List Candle) (tf : String)
    (interval : ℕ)
    (_hasc : candles.Pairwise (fun a b => a.timestamp ≤ b.timestamp))
    (htf : timeframeToMs tf = some interval) :
    ∃ out, aggregateCandles candles tf = some out ∧
      (out.map Candle.timestamp).Pairwise (· < ·) ∧
      (∀ b : ℤ, b ∈ out.map Candle.timestamp ↔
        candles.filter
          (fun c => decide (bucketOf interval c.timestamp = b)) ≠ []) ∧
      (∀ a ∈ out, ∃ g₀ gs,
        candles.filter
          (fun c => decide (bucketOf interval c.timestamp = a.timestamp)) =
          g₀ :: gs ∧
        a.«open» = g₀.«open» ∧
        a.close = ((g₀ :: gs).getLast (List.cons_ne_nil g₀ gs)).close ∧
        (∀ x ∈ g₀ :: gs, x.high ≤ a.high) ∧
        a.high ∈ (g₀ :: gs).map Candle.high ∧
        (∀ x ∈ g₀ :: gs, a.low ≤ x.low) ∧
        a.low ∈ (g₀ :: gs).map Candle.low ∧
        a.volume = ((g₀ :: gs).map Candle.volume).sum) := by
  by_cases hnil : candles = []
  · refine ⟨[], by simp [aggregateCandles, hnil], by simp, ?_, ?_⟩
    · intro b
      simp [hnil]
    · intro a ha
      simp at ha
  · have hagg : aggregateCandles candles tf =
        some ((List.insertionSort (· ≤ ·)
          ((candles.map fun c => bucketOf interval c.timestamp).dedup)).filterMap
          (bucketBuilder interval candles)) := by
      simp only [aggregateCandles, hnil, if_false, htf]
    have hsome : ∀ k ∈ List.insertionSort (· ≤ ·)
        ((candles.map fun c => bucketOf interval c.timestamp).dedup),
        (bucketBuilder interval candles k).isSome = true := by
      intro k hk
      have hne := (mem_sorted_bucket_keys interval candles k).mp hk
      unfold bucketBuilder
      rcases hg : candles.filter
          (fun c => decide (bucketOf interval c.timestamp = k)) with _ | ⟨g₀, gs⟩ <;>
        rw [hg]
      · exact absurd hg hne
      · simp
    have hmapts : ((List.insertionSort (· ≤ ·)
        ((candles.map fun c => bucketOf interval c.timestamp).dedup)).filterMap
        (bucketBuilder interval candles)).map Candle.timestamp =
        List.insertionSort (· ≤ ·)
          ((candles.map fun c => bucketOf interval c.timestamp).dedup) :=
      filterMap_timestamps (bucketBuilder interval candles)
        (bucketBuilder_timestamp interval candles) _ hsome
    refine ⟨_, hagg, ?_, ?_, ?_⟩
    · rw [hmapts]
      refine List.Sorted.lt_of_le (List.sorted_insertionSort (· ≤ ·) _) ?_
      exact ((List.perm_insertionSort (· ≤ ·) _).nodup_iff).mpr
        (List.nodup_dedup _)
    · intro b
      rw [hmapts]
      exact mem_sorted_bucket_keys interval candles b
    · intro a ha
      obtain ⟨k, hk, hbk⟩ := List.mem_filterMap.mp ha
      have hat : a.timestamp = k := bucketBuilder_timestamp _ _ _ _ hbk
      unfold bucketBuilder at hbk
      rcases hg : candles.filter
          (fun c => decide (bucketOf interval c.timestamp = k)) with _ | ⟨g₀, gs⟩ <;>
        rw [hg] at hbk <;> dsimp only at hbk
      · exact absurd hbk (by simp)
      · simp only [Option.some.injEq] at hbk
        refine ⟨g₀, gs, by rw [hat]; exact hg, ?_, ?_, ?_, ?_, ?_, ?_, ?_⟩ <;>
          rw [← hbk]
        · intro x hx
          show x.high ≤ gs.foldl (fun m v => max m v.high) g₀.high
          rw [← List.foldl_map Candle.high max gs g₀.high]
          rcases List.mem_cons.mp hx with h | h
          · subst h
            exact foldl_max_le_init _ _
          · exact foldl_max_le_mem _ _ _ (List.mem_map_of_mem Candle.high h)
        · show gs.foldl (fun m v => max m v.high) g₀.high ∈
            (g₀ :: gs).map Candle.high
          rw [← List.foldl_map Candle.high max gs g₀.high]
          rcases foldl_max_cases (gs.map Candle.high) g₀.high with h | h
          · rw [h]
            exact List.mem_cons_self _ _
          · exact List.mem_cons_of_mem _ h
        · intro x hx
          show gs.foldl (fun m v => min m v.low) g₀.low ≤ x.low
          rw [← List.foldl_map Candle.low min gs g₀.low]
          rcases List.mem_cons.mp hx with h | h
          · subst h
            exact foldl_min_ge_init _ _
          · exact foldl_min_ge_mem _ _ _ (List.mem_map_of_mem Candle.low h)
        · show gs.foldl (fun m v => min m v.low) g₀.low ∈
            (g₀ :: gs).map Candle.low
          rw [← List.foldl_map Candle.low min gs g₀.low]
          rcases foldl_min_cases (gs.map Candle.low) g₀.low with h | h
          · rw [h]
            exact List.mem_cons_self _ _
          · exact List.mem_cons_of_mem _ h
        · show (g₀ :: gs).foldl (fun s v => s + v.volume) 0 =
            ((g₀ :: gs).map Candle.volume).sum
          rw [← List.foldl_map Candle.volume (· + ·) (g₀ :: gs) 0,
            foldl_add_eq_sum, zero_add]

/-- C8 witness: three candles in two hourly buckets aggregate to strictly
ascending bucket keys, with the first bucket present. -/
theorem c8_aggregate_buckets_witness :
    demoAggSeries.Pairwise (fun a b => a.timestamp ≤ b.timestamp) ∧
    timeframeToMs "1h" = some 3600000 ∧
    ∃ out, aggregateCandles demoAggSeries "1h" = some out ∧
      (out.map Candle.timestamp).Pairwise (· < ·) ∧
      (0 : ℤ) ∈ out.map Candle.timestamp := by
  refine ⟨by decide, by decide, ?_⟩
  obtain ⟨out, h1, h2, h3, _⟩ :=
    c8_aggregate_buckets demoAggSeries "1h" 3600000 (by decide) (by decide)
  refine ⟨out, h1, h2, ?_⟩
  refine (h3 0).mpr ?_
  decide

end Backtest
